import Mathlib

/-!
Shallow embedding of the AGENTS.md validator core:
the structural Markdown parser (`src/lib/markdownParser.ts`),
the rule catalogue (`validationRules.ts`) and the aggregator
(`src/lib/validator.ts`).  Strings are modelled as `List Char`
(one JS code unit per element, ASCII inputs render this exact);
machine numbers are `Nat`/`Int`.
-/

set_option maxRecDepth 16384

namespace AgentsMd

/-- ECMAScript whitespace as matched by `String.prototype.trim` and `\s`:
WhiteSpace (TAB, VT, FF, SP, NBSP, ZWNBSP, Zs) plus LineTerminator (LF, CR, LS, PS). -/
def isJsWhitespace (c : Char) : Bool :=
  decide (c.toNat = 9) || decide (c.toNat = 10) || decide (c.toNat = 11) ||
  decide (c.toNat = 12) || decide (c.toNat = 13) || decide (c.toNat = 32) ||
  decide (c.toNat = 160) || decide (c.toNat = 5760) ||
  (decide (8192 ≤ c.toNat) && decide (c.toNat ≤ 8202)) ||
  decide (c.toNat = 8232) || decide (c.toNat = 8233) || decide (c.toNat = 8239) ||
  decide (c.toNat = 8287) || decide (c.toNat = 12288) || decide (c.toNat = 65279)

/-- ECMAScript LineTerminator characters (the characters `.` refuses to match). -/
def isLineTerminator (c : Char) : Bool :=
  decide (c.toNat = 10) || decide (c.toNat = 13) ||
  decide (c.toNat = 8232) || decide (c.toNat = 8233)

/-- ECMAScript `\w`: `[A-Za-z0-9_]`. -/
def wordChar (c : Char) : Bool :=
  (decide (65 ≤ c.toNat) && decide (c.toNat ≤ 90)) ||
  (decide (97 ≤ c.toNat) && decide (c.toNat ≤ 122)) ||
  (decide (48 ≤ c.toNat) && decide (c.toNat ≤ 57)) ||
  decide (c.toNat = 95)

/-- ECMAScript `\d`: `[0-9]`. -/
def isDigitChar (c : Char) : Bool :=
  decide (48 ≤ c.toNat) && decide (c.toNat ≤ 57)

/-- ASCII lowercasing, modelling `String.prototype.toLowerCase` on the
ASCII range (the keyword vocabularies below are all ASCII). -/
def lowerChar (c : Char) : Char :=
  if 65 ≤ c.toNat ∧ c.toNat ≤ 90 then Char.ofNat (c.toNat + 32) else c

/-- `String.prototype.trim`: strip leading and trailing JS whitespace. -/
def jsTrim (l : List Char) : List Char :=
  ((l.dropWhile isJsWhitespace).reverse.dropWhile isJsWhitespace).reverse

/-- `content.split('\n')`: always yields at least one (possibly empty) line. -/
def splitLines : List Char → List (List Char)
  | [] => [[]]
  | c :: rest =>
    let r := splitLines rest
    if c = '\n' then [] :: r
    else
      match r with
      | [] => [[c]]
      | l :: ls => (c :: l) :: ls

/-- `a.startsWith(b)` on character lists (the needle is the first argument). -/
def leadsWith : List Char → List Char → Bool
  | [], _ => true
  | _ :: _, [] => false
  | a :: as, b :: bs => a == b && leadsWith as bs

/-- `haystack.includes(needle)` on character lists. -/
def hasSub (needle : List Char) : List Char → Bool
  | [] => needle.isEmpty
  | c :: rest => leadsWith needle (c :: rest) || hasSub needle rest

/-- Is the head character a `\w` character (`false` at end of input)?
Used for `\b` boundaries and lookaheads. -/
def headIsWord : List Char → Bool
  | [] => false
  | c :: _ => wordChar c

/-- Is the head character a digit (`false` at end of input)? -/
def headIsDigit : List Char → Bool
  | [] => false
  | c :: _ => isDigitChar c

/-- Scan every suffix of the text, testing a position matcher `f` that is
given the suffix; `f` is only tried at positions preceded by a non-`\w`
character (or the start), modelling a leading `\b` of a pattern that starts
with a word character.  The boolean argument carries the wordness of the
previous character. -/
def scanPos (f : List Char → Bool) : List Char → Bool → Bool
  | [], _ => false
  | c :: rest, prevW => (!prevW && f (c :: rest)) || scanPos f rest (wordChar c)

/-! ## Structural parser (`src/lib/markdownParser.ts`) -/

structure Heading where
  text : List Char
  level : Nat
  lineNumber : Nat
deriving DecidableEq

structure MdSection where
  title : List Char
  level : Nat
  lineNumber : Nat
  content : List Char
deriving DecidableEq

structure CodeBlock where
  language : List Char
  code : List Char
  lineNumber : Nat
deriving DecidableEq

structure ParsedMarkdown where
  sections : List MdSection
  lineCount : Nat
  characterCount : Nat
  codeBlocks : List CodeBlock
  headings : List Heading
deriving DecidableEq

/-- `line.trim().startsWith('```')`. -/
def isFenceLine (line : List Char) : Bool :=
  match jsTrim line with
  | '`' :: '`' :: '`' :: _ => true
  | _ => false

/-- The regex `/^(#{1,6})\s+(.+)$/` of the heading detector, with ECMAScript
backtracking semantics; returns the level (length of group 1) and group 2.
`#{1,6}` is forced to take every leading `#` (at most 6); `\s+` takes the
maximal whitespace run, giving back exactly one trailing whitespace character
when nothing is left for `(.+)`; `.` refuses LineTerminator characters. -/
def matchHeading (line : List Char) : Option (Nat × List Char) :=
  let k := (line.takeWhile (fun c => c == '#')).length
  if k = 0 ∨ 6 < k then none
  else
    let after := line.drop k
    let ws := after.takeWhile isJsWhitespace
    let rest := after.dropWhile isJsWhitespace
    if ws.isEmpty then none
    else if rest.isEmpty then
      match after.reverse with
      | [] => none
      | [_] => none
      | c :: _ :: _ => if isLineTerminator c then none else some (k, [c])
    else if rest.any isLineTerminator then none
    else some (k, rest)

/-- The mutable locals of `parseMarkdown`'s `forEach` body. -/
structure ParseState where
  sections : List MdSection
  codeBlocks : List CodeBlock
  headings : List Heading
  currentSection : Option MdSection
  inCodeBlock : Bool
  currentCodeBlock : Option CodeBlock
deriving DecidableEq

def initState : ParseState :=
  { sections := [], codeBlocks := [], headings := [],
    currentSection := none, inCodeBlock := false, currentCodeBlock := none }

/-- One iteration of the `lines.forEach` body of `parseMarkdown`. -/
def processLine (st : ParseState) (line : List Char) (lineNumber : Nat) : ParseState :=
  if isFenceLine line then
    if st.inCodeBlock = false then
      let t := jsTrim ((jsTrim line).drop 3)
      let language := if t.isEmpty then "text".toList else t
      { st with currentCodeBlock := some ⟨language, [], lineNumber⟩, inCodeBlock := true }
    else
      match st.currentCodeBlock with
      | some cb =>
        { st with codeBlocks := st.codeBlocks ++ [cb], currentCodeBlock := none,
                  inCodeBlock := false }
      | none => { st with inCodeBlock := false }
  else if st.inCodeBlock && st.currentCodeBlock.isSome then
    match st.currentCodeBlock with
    | some cb =>
      { st with currentCodeBlock := some { cb with code := cb.code ++ line ++ ['\n'] } }
    | none => st
  else
    match matchHeading line with
    | some (level, g2) =>
      let text := jsTrim g2
      { st with
        headings := st.headings ++ [⟨text, level, lineNumber⟩],
        sections := (match st.currentSection with
          | some s => st.sections ++ [s]
          | none => st.sections),
        currentSection := some ⟨text, level, lineNumber, []⟩ }
    | none =>
      match st.currentSection with
      | some s =>
        { st with currentSection := some { s with content := s.content ++ line ++ ['\n'] } }
      | none => st

/-- Run the `forEach` over the lines, threading the 1-based line number. -/
def runLines (st : ParseState) (n : Nat) : List (List Char) → ParseState
  | [] => st
  | l :: rest => runLines (processLine st l n) (n + 1) rest

/-- The final `if (currentSection) sections.push(currentSection)`. -/
def finishSections (st : ParseState) : List MdSection :=
  match st.currentSection with
  | some s => st.sections ++ [s]
  | none => st.sections

/-- `parseMarkdown` from `src/lib/markdownParser.ts`. -/
def parseMarkdown (content : List Char) : ParsedMarkdown :=
  let lines := splitLines content
  let st := runLines initState 1 lines
  { sections := finishSections st,
    lineCount := lines.length,
    characterCount := content.length,
    codeBlocks := st.codeBlocks,
    headings := st.headings }

/-! ## Lexical heuristics (`markdownParser.ts`, lower half) -/

/-- The scan loop of `/`([^`]+)`/g` in `extractCommands`, with explicit
fuel (the loop consumes at least one character per step, so `l.length`
steps suffice; structural recursion on the fuel keeps the definition
kernel-reducible). -/
def extractInlineSpansAux : Nat → List Char → List (List Char)
  | 0, _ => []
  | _ + 1, [] => []
  | fuel + 1, c :: rest =>
    if c = '`' then
      match rest.dropWhile (fun x => x != '`') with
      | '`' :: tail =>
        let span := rest.takeWhile (fun x => x != '`')
        if span.isEmpty then extractInlineSpansAux fuel rest
        else span :: extractInlineSpansAux fuel tail
      | _ => extractInlineSpansAux fuel rest
    else extractInlineSpansAux fuel rest

/-- The global scan of `/`([^`]+)`/g` in `extractCommands`: return every
backtick-delimited inline span (nonempty, no inner backtick), resuming after
each closing backtick; a backtick with no nonempty closed span advances by
one character, as the regex engine does. -/
def extractInlineSpans (l : List Char) : List (List Char) :=
  extractInlineSpansAux l.length l

/-- The command-likeness test of `extractCommands`. -/
def isCommand (code : List Char) : Bool :=
  code.contains ' ' ||
  leadsWith "npm ".toList code || leadsWith "pnpm ".toList code ||
  leadsWith "yarn ".toList code || leadsWith "bun ".toList code ||
  leadsWith "git ".toList code || leadsWith "docker ".toList code ||
  leadsWith "make ".toList code ||
  hasSub "test".toList code || hasSub "build".toList code ||
  hasSub "dev".toList code || hasSub "start".toList code

/-- `extractCommands` from `markdownParser.ts`. -/
def extractCommands (content : List Char) : List (List Char) :=
  (extractInlineSpans content).filter isCommand

/-- Lookahead `\s+\d`: one or more whitespace characters then a digit
(the digit can only sit right after the maximal whitespace run). -/
def wsThenDigit (tail : List Char) : Bool :=
  !(tail.takeWhile isJsWhitespace).isEmpty &&
    headIsDigit (tail.dropWhile isJsWhitespace)

/-- Lookahead `\s+v?\d`: whitespace run then an optional `v` then a digit. -/
def wsThenOptVDigit (tail : List Char) : Bool :=
  !(tail.takeWhile isJsWhitespace).isEmpty &&
    (match tail.dropWhile isJsWhitespace with
     | [] => false
     | c :: cs => isDigitChar c || (c == 'v' && headIsDigit cs))

/-- Position matcher for `/\b\w+\s+\d+(\.\d+)?(\.\d+)?\b/`: a full word run,
a whitespace run, a digit run; the trailing `\b` holds iff the character
after the maximal digit run is absent or not a word character (a following
`.` satisfies `\b` with both optional groups skipped). -/
def versionAt1 (l : List Char) : Bool :=
  headIsWord l &&
    (let r1 := l.dropWhile wordChar
     !(r1.takeWhile isJsWhitespace).isEmpty &&
       (let r2 := r1.dropWhile isJsWhitespace
        headIsDigit r2 && !(headIsWord (r2.dropWhile isDigitChar))))

/-- Position matcher for `/\b\w+\s+v\d+(\.\d+)?(\.\d+)?\b/`. -/
def versionAt2 (l : List Char) : Bool :=
  headIsWord l &&
    (let r1 := l.dropWhile wordChar
     !(r1.takeWhile isJsWhitespace).isEmpty &&
       (match r1.dropWhile isJsWhitespace with
        | [] => false
        | c :: cs => c == 'v' && headIsDigit cs && !(headIsWord (cs.dropWhile isDigitChar))))

/-- `hasVersionSpecificity` from `markdownParser.ts`. -/
def hasVersionSpecificity (content : List Char) : Bool :=
  scanPos versionAt1 content false || scanPos versionAt2 content false

/-- One whole-word occurrence of `w` (`\bw\b`, case already folded):
preceded by a non-word position (enforced by `scanPos`) and followed by a
non-word character or the end. -/
def hasWordBounded (w : List Char) (text : List Char) : Bool :=
  scanPos (fun l => leadsWith w l && !(headIsWord (l.drop w.length))) text false

structure SectionKeywords where
  hasSetup : Bool
  hasTesting : Bool
  hasCodeStyle : Bool
  hasArchitecture : Bool
  hasSecurity : Bool
  hasGitWorkflow : Bool
deriving DecidableEq

/-- `detectSectionKeywords` from `markdownParser.ts`: each flag is a
case-insensitive whole-word alternation test. -/
def detectSectionKeywords (text : List Char) : SectionKeywords :=
  let lower := text.map lowerChar
  { hasSetup := ["setup", "install", "dependencies", "requirements",
      "getting started", "dev environment"].any (fun w => hasWordBounded w.toList lower),
    hasTesting := ["test", "testing", "qa", "quality"].any
      (fun w => hasWordBounded w.toList lower),
    hasCodeStyle := ["style", "lint", "format", "convention", "standards"].any
      (fun w => hasWordBounded w.toList lower),
    hasArchitecture := ["architecture", "structure", "design", "organization",
      "overview"].any (fun w => hasWordBounded w.toList lower),
    hasSecurity := ["security", "auth", "authentication", "secrets",
      "credentials"].any (fun w => hasWordBounded w.toList lower),
    hasGitWorkflow := ["git", "commit", "pr", "pull request", "branch",
      "workflow"].any (fun w => hasWordBounded w.toList lower) }

/-! ## Rule catalogue (`validationRules.ts`) -/

inductive SuggestionPriority where
  | low
  | medium
  | high
deriving DecidableEq

inductive SuggestionType where
  | tip
  | info
  | success
deriving DecidableEq

/-- A suggestion record; the source field `example` is a Lean keyword and is
rendered here as `exampleText`. -/
structure ValidationSuggestion where
  type : SuggestionType
  title : String
  message : String
  suggestion : Option String
  exampleText : Option String
  priority : SuggestionPriority
deriving DecidableEq

/-- `checkLength` from `validationRules.ts`. -/
def checkLength (parsed : ParsedMarkdown) : Option ValidationSuggestion :=
  let lineCount := parsed.lineCount
  if 200 < lineCount then
    some ⟨.tip, "Consider keeping it concise",
      "Your AGENTS.md is " ++ toString lineCount ++
        " lines. Best practice is ≤150 lines for readability.",
      some ("Try focusing on the most critical information agents need. " ++
        "Remove outdated or overly detailed sections."),
      none, .medium⟩
  else if 150 < lineCount then
    some ⟨.tip, "File is getting long",
      "Your AGENTS.md is " ++ toString lineCount ++
        " lines. Consider trimming to ≤150 lines.",
      some "Focus on essential commands, conventions, and agent-specific context.",
      none, .low⟩
  else none

/-- `checkMinimumContent` from `validationRules.ts`: at most one suggestion,
the `lineCount < 5` branch shadowing the `sections.length === 0` branch. -/
def checkMinimumContent (parsed : ParsedMarkdown) : Option ValidationSuggestion :=
  if parsed.lineCount < 5 then
    some ⟨.tip, "Add more context",
      "Your AGENTS.md is quite short. Adding more details will help agents work more effectively.",
      some "Consider adding setup commands, testing instructions, and code style guidelines.",
      some "# AGENTS.md\n\n## Setup\n- Install: `npm install`\n- Start dev: `npm run dev`\n\n## Testing\n- Run tests: `npm test`\n\n## Code style\n- Use TypeScript strict mode\n- Prefer functional components",
      .medium⟩
  else if parsed.sections.length = 0 then
    some ⟨.tip, "Add section headings",
      "No section headings found. Organize your content with clear headings.",
      some ("Use ## for main sections like \"Setup\", \"Testing\", \"Code Style\"."),
      none, .high⟩
  else none

/-- `sections.map(s => s.title + ' ' + s.content).join(' ')`. -/
def joinSpace : List (List Char) → List Char
  | [] => []
  | [x] => x
  | x :: y :: rest => x ++ ' ' :: joinSpace (y :: rest)

def allSectionText (parsed : ParsedMarkdown) : List Char :=
  joinSpace (parsed.sections.map (fun s => s.title ++ ' ' :: s.content))

/-- `checkCommonSections` from `validationRules.ts`. -/
def checkCommonSections (parsed : ParsedMarkdown) : List ValidationSuggestion :=
  let keywords := detectSectionKeywords (allSectionText parsed)
  (if keywords.hasSetup = false then
    [⟨.tip, "Consider adding setup instructions",
      "No setup or installation section found. Agents work better with clear setup commands.",
      some "Add a section with installation and development environment setup.",
      some "## Setup\n- Install dependencies: `pnpm install`\n- Start dev server: `pnpm dev`\n- Build: `pnpm build`",
      .high⟩]
  else []) ++
  (if keywords.hasTesting = false then
    [⟨.tip, "Consider adding testing instructions",
      "No testing section found. Test commands help agents verify their changes.",
      some "Add a section describing how to run tests and what to check.",
      some "## Testing\n- Run all tests: `pnpm test`\n- Run specific test: `pnpm test -- <pattern>`\n- Lint code: `pnpm lint`",
      .medium⟩]
  else []) ++
  (if keywords.hasCodeStyle = false then
    [⟨.tip, "Consider documenting code style",
      "No code style section found. Style guidelines help agents write consistent code.",
      some "Add a section with formatting rules, naming conventions, and patterns to follow.",
      some "## Code style\n- TypeScript strict mode enabled\n- Use functional components with hooks\n- Single quotes, no semicolons\n- Prefer named exports",
      .low⟩]
  else [])

/-- `checkCommandFormatting` from `validationRules.ts`. -/
def checkCommandFormatting (parsed : ParsedMarkdown) (content : List Char) :
    Option ValidationSuggestion :=
  let commands := extractCommands content
  if 5 < commands.length ∧ parsed.codeBlocks.length = 0 then
    some ⟨.tip, "Consider using code blocks",
      "Found " ++ toString commands.length ++
        " commands in inline code. Multi-line commands are easier to read in code blocks.",
      some "Use triple backticks (```) for multi-line commands or command lists.",
      some "```bash\nnpm install\nnpm run dev\nnpm test\n```",
      .low⟩
  else none

/-- Tool pattern `/\bName\b(?!\s+\d)/` (React, Python, TypeScript). -/
def toolSimpleMentioned (name : List Char) (content : List Char) : Bool :=
  scanPos (fun l =>
    leadsWith name l && !(headIsWord (l.drop name.length)) &&
      !(wsThenDigit (l.drop name.length))) content false

/-- `/\bNode(?:\.js)?\b(?!\s+v?\d)/` with its backtracking: the optional
`.js` may be dropped, in which case the `.` both satisfies `\b` and defeats
the lookahead. -/
def nodeMentioned (content : List Char) : Bool :=
  scanPos (fun l =>
    leadsWith "Node".toList l &&
      ((leadsWith ".js".toList (l.drop 4) && !(headIsWord (l.drop 7)) &&
          !(wsThenOptVDigit (l.drop 7))) ||
        (!(headIsWord (l.drop 4)) && !(wsThenOptVDigit (l.drop 4))))) content false

/-- `/\bNext(?:\.js)?\b(?!\s+\d)/`, same shape as `nodeMentioned`. -/
def nextMentioned (content : List Char) : Bool :=
  scanPos (fun l =>
    leadsWith "Next".toList l &&
      ((leadsWith ".js".toList (l.drop 4) && !(headIsWord (l.drop 7)) &&
          !(wsThenDigit (l.drop 7))) ||
        (!(headIsWord (l.drop 4)) && !(wsThenDigit (l.drop 4))))) content false

/-- The `toolPatterns` filter of `checkVersionSpecificity`, in source order. -/
def foundToolNames (content : List Char) : List String :=
  (if toolSimpleMentioned "React".toList content then ["React"] else []) ++
  (if nodeMentioned content then ["Node"] else []) ++
  (if toolSimpleMentioned "Python".toList content then ["Python"] else []) ++
  (if toolSimpleMentioned "TypeScript".toList content then ["TypeScript"] else []) ++
  (if nextMentioned content then ["Next.js"] else [])

/-- `checkVersionSpecificity` from `validationRules.ts`. -/
def checkVersionSpecificity (content : List Char) : Option ValidationSuggestion :=
  let foundTools := foundToolNames content
  if foundTools.length > 0 ∧ hasVersionSpecificity content = false then
    some ⟨.tip, "Be more specific about versions",
      "Found " ++ String.intercalate ", " foundTools ++ " mentioned without version numbers.",
      some "Specify versions to help agents use the right APIs and patterns.",
      some "Use \"React 18\" or \"Node.js 20\" instead of just \"React\" or \"Node\".",
      .low⟩
  else none

/-- `checkReadability` from `validationRules.ts`: up to three suggestions. -/
def checkReadability (parsed : ParsedMarkdown) : List ValidationSuggestion :=
  let topLevelHeadings := parsed.headings.filter (fun h => h.level == 1)
  let longSections := parsed.sections.filter
    (fun s => 50 < (splitLines s.content).length)
  let emptySections := parsed.sections.filter
    (fun s => (jsTrim s.content).length < 10)
  (if 1 < topLevelHeadings.length then
    [⟨.info, "Multiple top-level headings",
      "Found " ++ toString topLevelHeadings.length ++
        " # headings. AGENTS.md typically uses one # heading as the title.",
      some "Use ## for main sections instead of # to maintain clear hierarchy.",
      none, .low⟩]
  else []) ++
  (if 0 < longSections.length then
    [⟨.tip, "Some sections are very long",
      toString longSections.length ++ " section(s) have more than 50 lines.",
      some "Consider breaking long sections into subsections or removing verbose details.",
      none, .low⟩]
  else []) ++
  (if 0 < emptySections.length then
    [⟨.tip, "Empty sections detected",
      toString emptySections.length ++ " section(s) have little or no content.",
      some "Remove empty section headings or add content to make them useful.",
      none, .medium⟩]
  else [])

/-- `checkWellFormed` from `validationRules.ts`. -/
def checkWellFormed (parsed : ParsedMarkdown) (content : List Char) :
    Option ValidationSuggestion :=
  let keywords := detectSectionKeywords (allSectionText parsed)
  let hasGoodLength := 10 ≤ parsed.lineCount ∧ parsed.lineCount ≤ 150
  let hasSections := 3 ≤ parsed.sections.length
  let hasCommands := 0 < (extractCommands content).length ∨ 0 < parsed.codeBlocks.length
  let hasKeyTopics :=
    2 ≤ ([keywords.hasSetup, keywords.hasTesting, keywords.hasCodeStyle].count true)
  if hasGoodLength ∧ hasSections ∧ hasCommands ∧ hasKeyTopics then
    some ⟨.success, "Well-structured AGENTS.md",
      "Your AGENTS.md looks great! It has good structure, clear sections, and helpful commands.",
      some "Agents should be able to work effectively with this file.",
      none, .high⟩
  else none

/-! ## Aggregator (`src/lib/validator.ts`) -/

structure ValidationResult where
  suggestions : List ValidationSuggestion
  score : Int
  summary : String
deriving DecidableEq

/-- `const priorityOrder = { high: 0, medium: 1, low: 2 }`. -/
def priorityRank : SuggestionPriority → Nat
  | .high => 0
  | .medium => 1
  | .low => 2

/-- All rule outputs concatenated in the source's push order
(the emission order of the rule catalogue, before sorting). -/
def runRules (parsed : ParsedMarkdown) (content : List Char) : List ValidationSuggestion :=
  (checkLength parsed).toList ++
  (checkMinimumContent parsed).toList ++
  checkCommonSections parsed ++
  (checkCommandFormatting parsed content).toList ++
  (checkVersionSpecificity content).toList ++
  checkReadability parsed ++
  (checkWellFormed parsed content).toList

/-- Stable insertion: place `a` before the first element whose priority rank
is not smaller.  Folded over the list front-to-back this realizes
`suggestions.sort((a, b) => priorityOrder[a.priority] - priorityOrder[b.priority])`,
which is a stable sort in ECMAScript 2019+. -/
def insSorted (a : ValidationSuggestion) : List ValidationSuggestion → List ValidationSuggestion
  | [] => [a]
  | b :: bs =>
    if priorityRank b.priority < priorityRank a.priority then b :: insSorted a bs
    else a :: b :: bs

/-- The stable sort by priority of `validateAgentsMd`. -/
def sortByPriority : List ValidationSuggestion → List ValidationSuggestion
  | [] => []
  | x :: xs => insSorted x (sortByPriority xs)

/-- One suggestion's deduction inside `calculateScore`: `success`-type
suggestions deduct nothing, otherwise 15/8/3 by priority. -/
def scoreDeduction (s : ValidationSuggestion) : Int :=
  if s.type = .success then 0
  else
    match s.priority with
    | .high => 15
    | .medium => 8
    | .low => 3

/-- `calculateScore` from `src/lib/validator.ts`. -/
def calculateScore (parsed : ParsedMarkdown) (suggestions : List ValidationSuggestion) : Int :=
  let score : Int := suggestions.foldl (fun sc s => sc - scoreDeduction s) 100
  let score := max 0 score
  let score := if 3 ≤ parsed.sections.length then score + 5 else score
  let score := if 0 < parsed.codeBlocks.length then score + 5 else score
  let score := if 10 ≤ parsed.lineCount ∧ parsed.lineCount ≤ 150 then score + 5 else score
  min 100 score

/-- `generateSummary` from `src/lib/validator.ts`. -/
def generateSummary (suggestions : List ValidationSuggestion) (score : Int) : String :=
  let successSuggestions := suggestions.filter (fun s => decide (s.type = .success))
  let highPrioritySuggestions := suggestions.filter
    (fun s => decide (s.priority = .high) && decide (s.type ≠ .success))
  if 0 < successSuggestions.length then
    "Your AGENTS.md is well-structured and ready to help agents work effectively!"
  else if 80 ≤ score then
    "Your AGENTS.md looks good with just a few suggestions for improvement."
  else if 60 ≤ score then
    "Your AGENTS.md has good basics but could be improved in a few areas."
  else if 40 ≤ score then
    "Your AGENTS.md needs some work. Focus on the high-priority suggestions first."
  else if 0 < highPrioritySuggestions.length then
    "Start by addressing the high-priority suggestions to improve your AGENTS.md."
  else
    "Add more content and structure to help agents understand your project."

/-- The fixed suggestion of the empty-input short circuit. -/
def getStartedSuggestion : ValidationSuggestion :=
  ⟨.tip, "Get started with AGENTS.md",
    "Your file is empty. Start by adding a title and basic sections.",
    some "Add setup commands, testing instructions, and code style guidelines.",
    some "# AGENTS.md\n\n## Setup\n- Install dependencies: `npm install`\n- Start dev server: `npm run dev`\n\n## Testing\n- Run tests: `npm test`\n\n## Code style\n- Use TypeScript strict mode\n- Prefer functional components",
    .high⟩

/-- `validateAgentsMd` from `src/lib/validator.ts`: the empty / whitespace-only
short circuit, then parse once, run the rule catalogue, stable-sort by
priority, score, and summarize. -/
def validateAgentsMd (content : List Char) : ValidationResult :=
  if content.isEmpty || (jsTrim content).isEmpty then
    { suggestions := [getStartedSuggestion],
      score := 0,
      summary := "Empty file - add content to get started" }
  else
    let parsed := parseMarkdown content
    let suggestions := sortByPriority (runRules parsed content)
    let score := calculateScore parsed suggestions
    { suggestions := suggestions,
      score := score,
      summary := generateSummary suggestions score }

/-! ## Parser lemmas -/

/-- 1 while inside a code fence, else 0. -/
def fencePend (st : ParseState) : Nat := if st.inCodeBlock then 1 else 0

/-- 1 while a section is open, else 0. -/
def secPend (st : ParseState) : Nat := if st.currentSection.isSome then 1 else 0

theorem runLines_append (as bs : List (List Char)) (st : ParseState) (n : Nat) :
    runLines st n (as ++ bs) = runLines (runLines st n as) (n + as.length) bs := by
  induction as generalizing st n with
  | nil => simp [runLines]
  | cons a as ih =>
    show runLines (processLine st a n) (n + 1) (as ++ bs) =
      runLines (runLines (processLine st a n) (n + 1) as) (n + (a :: as).length) bs
    rw [ih]
    have harith : n + 1 + as.length = n + (a :: as).length := by
      simp only [List.length_cons]
      omega
    rw [harith]

theorem processLine_nonfence (st : ParseState) (l : List Char) (n : Nat)
    (hf : isFenceLine l = false) :
    (processLine st l n).inCodeBlock = st.inCodeBlock ∧
    (processLine st l n).codeBlocks = st.codeBlocks ∧
    (processLine st l n).currentCodeBlock.isSome = st.currentCodeBlock.isSome := by
  unfold processLine
  rw [hf]
  simp only [Bool.false_eq_true, if_false]
  split
  · split <;> simp_all
  · split
    · simp
    · split <;> simp

theorem processLine_headSec (st : ParseState) (l : List Char) (n : Nat)
    (h : st.headings.length = st.sections.length + secPend st) :
    (processLine st l n).headings.length =
      (processLine st l n).sections.length + secPend (processLine st l n) := by
  unfold processLine
  split
  · split
    · simp_all [secPend]
    · split <;> simp_all [secPend]
  · split
    · split <;> simp_all [secPend]
    · split
      · cases hcs : st.currentSection with
        | none => simp_all [secPend]
        | some s => simp_all [secPend]
      · split <;> simp_all [secPend]

theorem runLines_headSec (lines : List (List Char)) : ∀ (st : ParseState) (n : Nat),
    st.headings.length = st.sections.length + secPend st →
    (runLines st n lines).headings.length =
      (runLines st n lines).sections.length + secPend (runLines st n lines) := by
  induction lines with
  | nil => intro st n h; simpa [runLines] using h
  | cons l rest ih =>
    intro st n h
    exact ih _ _ (processLine_headSec st l n h)

/-- Fence bookkeeping along the scan: the in-progress block exists exactly
while inside a fence, the fence flag follows the parity of the fence-marker
count, and one block is recorded per marker pair. -/
theorem runLines_fence (lines : List (List Char)) : ∀ (st : ParseState) (n : Nat),
    st.currentCodeBlock.isSome = st.inCodeBlock →
    (runLines st n lines).currentCodeBlock.isSome = (runLines st n lines).inCodeBlock ∧
    (runLines st n lines).inCodeBlock =
      decide ((lines.countP isFenceLine + fencePend st) % 2 = 1) ∧
    (runLines st n lines).codeBlocks.length =
      st.codeBlocks.length + (lines.countP isFenceLine + fencePend st) / 2 := by
  induction lines with
  | nil =>
    intro st n h
    refine ⟨h, ?_, ?_⟩
    · cases hin : st.inCodeBlock <;> simp [runLines, fencePend, hin]
    · cases hin : st.inCodeBlock <;> simp [runLines, fencePend, hin]
  | cons l rest ih =>
    intro st n h
    have hrun : runLines st n (l :: rest) = runLines (processLine st l n) (n + 1) rest := rfl
    by_cases hf : isFenceLine l
    · have hcnt : (l :: rest).countP isFenceLine = rest.countP isFenceLine + 1 := by
        simp [List.countP_cons, hf]
      cases hin : st.inCodeBlock with
      | false =>
        have ha : (processLine st l n).currentCodeBlock.isSome = true := by
          simp [processLine, hf, hin]
        have hb : (processLine st l n).inCodeBlock = true := by
          simp [processLine, hf, hin]
        have hc : (processLine st l n).codeBlocks = st.codeBlocks := by
          simp [processLine, hf, hin]
        have hfp1 : fencePend (processLine st l n) = 1 := by simp [fencePend, hb]
        have hfp2 : fencePend st = 0 := by simp [fencePend, hin]
        have ih2 := ih (processLine st l n) (n + 1) (by rw [ha, hb])
        rw [hrun, hcnt]
        refine ⟨ih2.1, ?_, ?_⟩
        · rw [ih2.2.1, hfp1, hfp2]
        · rw [ih2.2.2, hc, hfp1, hfp2]
      | true =>
        obtain ⟨cb, hcb⟩ := Option.isSome_iff_exists.mp (by rw [h, hin])
        have ha : (processLine st l n).currentCodeBlock.isSome = false := by
          simp [processLine, hf, hin, hcb]
        have hb : (processLine st l n).inCodeBlock = false := by
          simp [processLine, hf, hin, hcb]
        have hc : (processLine st l n).codeBlocks = st.codeBlocks ++ [cb] := by
          simp [processLine, hf, hin, hcb]
        have hfp1 : fencePend (processLine st l n) = 0 := by simp [fencePend, hb]
        have hfp2 : fencePend st = 1 := by simp [fencePend, hin]
        have ih2 := ih (processLine st l n) (n + 1) (by rw [ha, hb])
        rw [hrun, hcnt]
        refine ⟨ih2.1, ?_, ?_⟩
        · rw [ih2.2.1, hfp1, hfp2]
          have h2 : (rest.countP isFenceLine + 1 + 1) % 2 = (rest.countP isFenceLine + 0) % 2 := by
            omega
          rw [h2]
        · rw [ih2.2.2, hc, hfp1, hfp2]
          simp only [List.length_append, List.length_cons, List.length_nil]
          omega
    · have hcnt : (l :: rest).countP isFenceLine = rest.countP isFenceLine := by
        simp [List.countP_cons, hf]
      have hp := processLine_nonfence st l n (by simpa using hf)
      have hfp1 : fencePend (processLine st l n) = fencePend st := by
        simp [fencePend, hp.1]
      have ih2 := ih (processLine st l n) (n + 1) (by rw [hp.2.2, hp.1, h])
      rw [hrun, hcnt]
      refine ⟨ih2.1, ?_, ?_⟩
      · rw [ih2.2.1, hfp1]
      · rw [ih2.2.2, hp.2.1, hfp1]

/-- C6: exactly one section opens per recorded heading, and the final flush
closes the last one, so the counts always agree. -/
theorem headings_length_eq_sections_length_c6 (content : List Char) :
    (parseMarkdown content).headings.length = (parseMarkdown content).sections.length := by
  have h := runLines_headSec (splitLines content) initState 1 (by simp [initState, secPend])
  show (runLines initState 1 (splitLines content)).headings.length =
    (finishSections (runLines initState 1 (splitLines content))).length
  unfold finishSections
  cases hcs : (runLines initState 1 (splitLines content)).currentSection <;>
    simp [secPend, hcs] at h ⊢ <;> omega

/-- C5: one code block is recorded per pair of fence-marker lines; with an
odd number of markers the last opened block is dropped, so the count is
always `floor(markers / 2)`. -/
theorem codeBlocks_length_c5 (content : List Char) :
    (parseMarkdown content).codeBlocks.length =
      ((splitLines content).countP isFenceLine) / 2 := by
  unfold parseMarkdown
  have h := runLines_fence (splitLines content) initState 1 (by simp [initState])
  simpa [initState, fencePend] using h.2.2

/-- While inside a fence with an in-progress block, non-marker lines only
accumulate into that block: headings, sections, recorded blocks and the open
section are untouched. -/
theorem runLines_inFence (post : List (List Char)) : ∀ (st : ParseState) (n : Nat),
    st.inCodeBlock = true → st.currentCodeBlock.isSome = true →
    (∀ l ∈ post, isFenceLine l = false) →
    (runLines st n post).headings = st.headings ∧
    (runLines st n post).sections = st.sections ∧
    (runLines st n post).codeBlocks = st.codeBlocks ∧
    (runLines st n post).currentSection = st.currentSection := by
  induction post with
  | nil => intro st n _ _ _; exact ⟨rfl, rfl, rfl, rfl⟩
  | cons l rest ih =>
    intro st n hin hsome hall
    obtain ⟨cb, hcb⟩ := Option.isSome_iff_exists.mp hsome
    have hf : isFenceLine l = false := hall l (by simp)
    have hpl : processLine st l n =
        { st with currentCodeBlock := some { cb with code := cb.code ++ l ++ ['\n'] } } := by
      simp [processLine, hf, hin, hcb]
    have ih2 := ih (processLine st l n) (n + 1) (by rw [hpl]; exact hin)
      (by rw [hpl]; rfl) (fun x hx => hall x (by simp [hx]))
    have hrun : runLines st n (l :: rest) = runLines (processLine st l n) (n + 1) rest := rfl
    rw [hrun, hpl]
    obtain ⟨e1, e2, e3, e4⟩ := ih2
    rw [hpl] at e1 e2 e3 e4
    exact ⟨e1, e2, e3, e4⟩

theorem splitLines_ne_nil (l : List Char) : splitLines l ≠ [] := by
  cases l with
  | nil => simp [splitLines]
  | cons c rest =>
    simp only [splitLines]
    split
    · simp
    · split <;> simp

/-- The input's character count is the sum of its lines' lengths plus one
separator per line break. -/
theorem length_eq_splitLines_sum (l : List Char) :
    l.length = ((splitLines l).map List.length).sum + ((splitLines l).length - 1) := by
  induction l with
  | nil => simp [splitLines]
  | cons c rest ih =>
    by_cases hc : c = '\n'
    · have hs : splitLines (c :: rest) = [] :: splitLines rest := by
        simp [splitLines, hc]
      have hpos : 0 < (splitLines rest).length :=
        List.length_pos.mpr (splitLines_ne_nil rest)
      rw [hs]
      simp only [List.map_cons, List.sum_cons, List.length_cons, List.length_nil]
      omega
    · cases hr : splitLines rest with
      | nil => exact absurd hr (splitLines_ne_nil rest)
      | cons l0 ls =>
        have hs : splitLines (c :: rest) = (c :: l0) :: ls := by
          simp [splitLines, hc, hr]
        rw [hs]
        rw [hr] at ih
        simp only [List.map_cons, List.sum_cons, List.length_cons] at ih ⊢
        omega

/-- C10: after an opening fence that is never closed, the remaining lines
contribute nothing to headings, sections or recorded code blocks — the
result is exactly what the prefix alone produces — while the line count and
character count still include them. -/
theorem unterminated_fence_c10 (content : List Char) (pre : List (List Char))
    (fence : List Char) (post : List (List Char))
    (hsplit : splitLines content = pre ++ fence :: post)
    (hfence : isFenceLine fence = true)
    (heven : (pre.countP isFenceLine) % 2 = 0)
    (hpost : ∀ l ∈ post, isFenceLine l = false) :
    (parseMarkdown content).headings = (runLines initState 1 pre).headings ∧
    (parseMarkdown content).sections = finishSections (runLines initState 1 pre) ∧
    (parseMarkdown content).codeBlocks = (runLines initState 1 pre).codeBlocks ∧
    (parseMarkdown content).lineCount = pre.length + 1 + post.length ∧
    (parseMarkdown content).characterCount =
      ((pre ++ fence :: post).map List.length).sum + (pre.length + post.length) := by
  have hfull : runLines initState 1 (splitLines content) =
      runLines (processLine (runLines initState 1 pre) fence (1 + pre.length))
        (1 + pre.length + 1) post := by
    rw [hsplit, runLines_append]
    rfl
  have hst1 := runLines_fence pre initState 1 (by simp [initState])
  have hin1 : (runLines initState 1 pre).inCodeBlock = false := by
    rw [hst1.2.1]
    have hfp : fencePend initState = 0 := rfl
    rw [hfp]
    simp only [Nat.add_zero, decide_eq_false_iff_not]
    omega
  have hnone : (runLines initState 1 pre).currentCodeBlock = none := by
    have := hst1.1
    rw [hin1] at this
    exact Option.not_isSome_iff_eq_none.mp (by rw [this]; simp)
  set st1 := runLines initState 1 pre with hdefst1
  have hopen : processLine st1 fence (1 + pre.length) =
      { st1 with
        currentCodeBlock := some ⟨(if (jsTrim ((jsTrim fence).drop 3)).isEmpty then
          "text".toList else jsTrim ((jsTrim fence).drop 3)), [], 1 + pre.length⟩,
        inCodeBlock := true } := by
    simp [processLine, hfence, hin1]
  have hrest := runLines_inFence post (processLine st1 fence (1 + pre.length))
    (1 + pre.length + 1) (by rw [hopen]) (by rw [hopen]; rfl) hpost
  rw [hopen] at hrest
  simp only at hrest
  have hfields : (runLines initState 1 (splitLines content)).headings = st1.headings ∧
      (runLines initState 1 (splitLines content)).sections = st1.sections ∧
      (runLines initState 1 (splitLines content)).codeBlocks = st1.codeBlocks ∧
      (runLines initState 1 (splitLines content)).currentSection = st1.currentSection := by
    rw [hfull, hopen]
    exact hrest
  have hlen : (splitLines content).length = pre.length + 1 + post.length := by
    rw [hsplit]
    simp
    omega
  refine ⟨?_, ?_, ?_, ?_, ?_⟩
  · show (runLines initState 1 (splitLines content)).headings = st1.headings
    exact hfields.1
  · show finishSections (runLines initState 1 (splitLines content)) = finishSections st1
    unfold finishSections
    rw [hfields.2.2.2, hfields.2.1]
  · show (runLines initState 1 (splitLines content)).codeBlocks = st1.codeBlocks
    exact hfields.2.2.1
  · exact hlen
  · show content.length = _
    have := length_eq_splitLines_sum content
    rw [hsplit] at this
    rw [this]
    simp only [List.length_append, List.length_cons]
    omega

theorem unterminated_fence_c10_witness :
    (splitLines "# a\n```\nx\n# b".toList =
        ["# a".toList] ++ "```".toList :: ["x".toList, "# b".toList] ∧
      isFenceLine "```".toList = true ∧
      (["# a".toList].countP isFenceLine) % 2 = 0 ∧
      (∀ l ∈ ["x".toList, "# b".toList], isFenceLine l = false)) ∧
    ((parseMarkdown "# a\n```\nx\n# b".toList).headings =
        (runLines initState 1 ["# a".toList]).headings ∧
      (parseMarkdown "# a\n```\nx\n# b".toList).sections =
        finishSections (runLines initState 1 ["# a".toList]) ∧
      (parseMarkdown "# a\n```\nx\n# b".toList).codeBlocks =
        (runLines initState 1 ["# a".toList]).codeBlocks ∧
      (parseMarkdown "# a\n```\nx\n# b".toList).lineCount =
        (["# a".toList] : List (List Char)).length + 1 +
          (["x".toList, "# b".toList] : List (List Char)).length ∧
      (parseMarkdown "# a\n```\nx\n# b".toList).characterCount =
        ((["# a".toList] ++ "```".toList :: ["x".toList, "# b".toList]).map
          List.length).sum +
          ((["# a".toList] : List (List Char)).length +
            (["x".toList, "# b".toList] : List (List Char)).length)) :=
  ⟨⟨by decide, by decide, by decide, by decide⟩,
    unterminated_fence_c10 "# a\n```\nx\n# b".toList ["# a".toList] "```".toList
      ["x".toList, "# b".toList] (by decide) (by decide) (by decide) (by decide)⟩

/-! ## Heading-regex lemmas (for C7) -/

theorem dropWhile_eq_drop_len {α : Type} (p : α → Bool) (l : List α) :
    l.dropWhile p = l.drop (l.takeWhile p).length := by
  induction l with
  | nil => rfl
  | cons c rest ih =>
    by_cases hp : p c
    · simp [List.dropWhile_cons, List.takeWhile_cons, hp, ih]
    · simp [List.dropWhile_cons, List.takeWhile_cons, hp]

theorem whitespace_ne_hash {c : Char} (h : isJsWhitespace c = true) : (c == '#') = false := by
  rcases Bool.eq_false_or_eq_true (c == '#') with h1 | h1
  · have hc : c = '#' := by simpa using h1
    subst hc
    exact absurd h (by decide)
  · exact h1

/-- One whitespace character gives no line terminator only when it is not
CR, LF, LS or PS; but every character of a terminator-free list is safe. -/
theorem matchHeading_isSome_iff (line : List Char) :
    (matchHeading line).isSome = true ↔
      ∃ k ws rest, line = List.replicate k '#' ++ ws ++ rest ∧
        1 ≤ k ∧ k ≤ 6 ∧ ws ≠ [] ∧ (∀ c ∈ ws, isJsWhitespace c = true) ∧
        rest ≠ [] ∧ (∀ c ∈ rest, isLineTerminator c = false) := by
  constructor
  · intro h
    simp only [matchHeading] at h
    split at h
    · simp at h
    · rename_i h1
      push_neg at h1
      have hline : line = List.replicate ((line.takeWhile (fun c => c == '#')).length) '#' ++
          line.drop ((line.takeWhile (fun c => c == '#')).length) := by
        have h2 : line.takeWhile (fun c => c == '#') =
            List.replicate ((line.takeWhile (fun c => c == '#')).length) '#' := by
          rw [List.eq_replicate_iff]
          exact ⟨rfl, fun b hb => by simpa using List.mem_takeWhile_imp hb⟩
        conv_lhs => rw [← List.takeWhile_append_dropWhile (fun c => c == '#') line]
        rw [dropWhile_eq_drop_len]
        rw [← h2]
      split at h
      · simp at h
      · rename_i h2
        split at h
        · rename_i h3
          have hallws : ∀ c ∈ line.drop ((line.takeWhile (fun c => c == '#')).length),
              isJsWhitespace c = true := by
            intro c hc
            exact (List.dropWhile_eq_nil_iff.mp (by simpa using h3)) c hc
          split at h
          · simp at h
          · simp at h
          · rename_i c d t2 hrev
            split at h
            · simp at h
            · rename_i hterm
              have hafter_eq : line.drop ((line.takeWhile (fun c => c == '#')).length) =
                  (d :: t2).reverse ++ [c] := by
                have hr := congrArg List.reverse hrev
                simpa using hr
              refine ⟨(line.takeWhile (fun c => c == '#')).length, (d :: t2).reverse, [c],
                ?_, ?_, ?_, ?_, ?_, ?_, ?_⟩
              · conv_lhs => rw [hline, hafter_eq]
                rw [List.append_assoc]
              · omega
              · omega
              · simp
              · intro x hx
                exact hallws x (by rw [hafter_eq]; exact List.mem_append_left _ hx)
              · simp
              · intro x hx
                simp at hx
                subst hx
                simpa using hterm
        · rename_i h3
          split at h
          · simp at h
          · rename_i h4
            refine ⟨(line.takeWhile (fun c => c == '#')).length,
              (line.drop ((line.takeWhile (fun c => c == '#')).length)).takeWhile isJsWhitespace,
              (line.drop ((line.takeWhile (fun c => c == '#')).length)).dropWhile isJsWhitespace,
              ?_, ?_, ?_, ?_, ?_, ?_, ?_⟩
            · conv_lhs => rw [hline]
              rw [List.append_assoc, List.takeWhile_append_dropWhile]
            · omega
            · omega
            · simpa using h2
            · intro c hc
              exact List.mem_takeWhile_imp hc
            · simpa using h3
            · intro x hx
              have h5 := List.any_eq_false.mp (by simpa using h4)
              simpa using h5 x hx
  · rintro ⟨k, ws, rest, hline, hk1, hk6, hwsne, hwsall, hrestne, hrestterm⟩
    have hhash : line.takeWhile (fun c => c == '#') = List.replicate k '#' := by
      rw [hline, List.append_assoc]
      rw [List.takeWhile_append_of_pos (by
        intro a ha
        simp [List.eq_of_mem_replicate ha])]
      cases ws with
      | nil => exact absurd rfl hwsne
      | cons w ws2 =>
        rw [List.cons_append, List.takeWhile_cons,
          whitespace_ne_hash (hwsall w (by simp))]
        simp
    have hklen : (line.takeWhile (fun c => c == '#')).length = k := by
      rw [hhash]
      simp
    have hafter : line.drop ((line.takeWhile (fun c => c == '#')).length) = ws ++ rest := by
      rw [hklen, hline, List.append_assoc]
      exact List.drop_left' (by simp)
    simp only [matchHeading]
    rw [hafter, hklen]
    rw [if_neg (by omega)]
    have htw : (ws ++ rest).takeWhile isJsWhitespace = ws ++ rest.takeWhile isJsWhitespace :=
      List.takeWhile_append_of_pos hwsall
    have hdw : (ws ++ rest).dropWhile isJsWhitespace = rest.dropWhile isJsWhitespace :=
      List.dropWhile_append_of_pos hwsall
    rw [htw, hdw]
    rw [if_neg (by simp [hwsne])]
    by_cases hrw : (rest.dropWhile isJsWhitespace).isEmpty
    · rw [if_pos hrw]
      have hrevlen : 2 ≤ ((ws ++ rest).reverse).length := by
        simp only [List.length_reverse, List.length_append]
        cases ws with
        | nil => exact absurd rfl hwsne
        | cons w ws2 =>
          cases rest with
          | nil => exact absurd rfl hrestne
          | cons r rs => simp; omega
      cases hrev : (ws ++ rest).reverse with
      | nil => rw [hrev] at hrevlen; simp at hrevlen
      | cons c t =>
        cases t with
        | nil => rw [hrev] at hrevlen; simp at hrevlen
        | cons d t2 =>
          have hcl : (ws ++ rest).getLast? = some c := by
            rw [← List.head?_reverse, hrev]
            rfl
          rw [List.getLast?_append, List.getLast?_eq_getLast rest hrestne] at hcl
          simp only [Option.or_some, Option.some.injEq] at hcl
          have hcmem : c ∈ rest := hcl ▸ List.getLast_mem hrestne
          simp [hrestterm c hcmem]
    · rw [if_neg hrw]
      have hany : (rest.dropWhile isJsWhitespace).any isLineTerminator = false := by
        rw [List.any_eq_false]
        intro x hx
        have hxr : x ∈ rest := (List.dropWhile_sublist _).subset hx
        simp [hrestterm x hxr]
      rw [hany]
      simp

theorem matchHeading_level (line : List Char) (k : Nat) (g : List Char)
    (h : matchHeading line = some (k, g)) :
    k = (line.takeWhile (fun c => c == '#')).length := by
  simp only [matchHeading] at h
  split at h
  · simp at h
  · split at h
    · simp at h
    · split at h
      · split at h
        · simp at h
        · simp at h
        · split at h
          · simp at h
          · simp only [Option.some.injEq, Prod.mk.injEq] at h
            exact h.1.symm
      · split at h
        · simp at h
        · simp only [Option.some.injEq, Prod.mk.injEq] at h
          exact h.1.symm

/-- C7 (amended): outside a fence, a line is recorded as a heading exactly
when it consists of 1–6 leading `#`, at least one whitespace character, and
at least one further character with no line terminator in the remainder; the
level is the number of leading `#` and the text is the trimmed second
capture group — which can be empty when everything after the hashes is
whitespace (the regex backtracks, see the counterexample). -/
theorem heading_rule_c7_amended (st : ParseState) (line : List Char) (n : Nat)
    (hin : st.inCodeBlock = false) (hf : isFenceLine line = false) :
    ((processLine st line n).headings =
      st.headings ++ ((matchHeading line).toList.map
        (fun p => (⟨jsTrim p.2, p.1, n⟩ : Heading)))) ∧
    ((matchHeading line).isSome = true ↔
      ∃ k ws rest, line = List.replicate k '#' ++ ws ++ rest ∧
        1 ≤ k ∧ k ≤ 6 ∧ ws ≠ [] ∧ (∀ c ∈ ws, isJsWhitespace c = true) ∧
        rest ≠ [] ∧ (∀ c ∈ rest, isLineTerminator c = false)) ∧
    (∀ k g, matchHeading line = some (k, g) →
      k = (line.takeWhile (fun c => c == '#')).length) := by
  refine ⟨?_, matchHeading_isSome_iff line, fun k g h => matchHeading_level line k g h⟩
  unfold processLine
  simp only [hf, Bool.false_eq_true, if_false, hin, Bool.false_and]
  cases hm : matchHeading line with
  | some p =>
    cases p with
    | mk k g => simp
  | none =>
    cases hcs : st.currentSection <;> simp [hcs]

/-- C7 as stated is false: on the three-character line `"#  "` the regex
backtracks, capturing a single space, and a heading with empty text is
recorded. -/
theorem heading_empty_text_c7_counterexample :
    (parseMarkdown ("#  ".toList)).headings = [⟨[], 1, 1⟩] := by decide

theorem heading_rule_c7_witness :
    (initState.inCodeBlock = false ∧ isFenceLine "# Title".toList = false) ∧
    (((processLine initState "# Title".toList 1).headings =
        initState.headings ++ ((matchHeading "# Title".toList).toList.map
          (fun p => (⟨jsTrim p.2, p.1, 1⟩ : Heading)))) ∧
      ((matchHeading "# Title".toList).isSome = true ↔
        ∃ k ws rest, "# Title".toList = List.replicate k '#' ++ ws ++ rest ∧
          1 ≤ k ∧ k ≤ 6 ∧ ws ≠ [] ∧ (∀ c ∈ ws, isJsWhitespace c = true) ∧
          rest ≠ [] ∧ (∀ c ∈ rest, isLineTerminator c = false)) ∧
      (∀ k g, matchHeading "# Title".toList = some (k, g) →
        k = ("# Title".toList.takeWhile (fun c => c == '#')).length)) :=
  ⟨⟨rfl, by decide⟩, heading_rule_c7_amended initState "# Title".toList 1 rfl (by decide)⟩

/-! ## Sorting lemmas (for C3 and suggestion-membership transfers) -/

theorem insSorted_cons_of_forall_ge (a : ValidationSuggestion)
    (l : List ValidationSuggestion)
    (h : ∀ y ∈ l, ¬ priorityRank y.priority < priorityRank a.priority) :
    insSorted a l = a :: l := by
  cases l with
  | nil => rfl
  | cons b bs => simp [insSorted, h b (by simp)]

theorem insSorted_all_lt (a : ValidationSuggestion) (ys zs : List ValidationSuggestion)
    (h : ∀ y ∈ ys, priorityRank y.priority < priorityRank a.priority) :
    insSorted a (ys ++ zs) = ys ++ insSorted a zs := by
  induction ys with
  | nil => simp
  | cons y ys ih =>
    rw [List.cons_append]
    show insSorted a (y :: (ys ++ zs)) = y :: ys ++ insSorted a zs
    rw [insSorted, if_pos (h y (by simp))]
    rw [ih (fun y' hy' => h y' (by simp [hy']))]
    rfl

theorem rank_of_mem_filter (q : SuggestionPriority) (l : List ValidationSuggestion)
    (y : ValidationSuggestion) (hy : y ∈ l.filter (fun s => decide (s.priority = q))) :
    y.priority = q := by
  have := (List.mem_filter.mp hy).2
  simpa using this

/-- The stable sort is the three priority buckets in emission order. -/
theorem sortByPriority_eq_filters (l : List ValidationSuggestion) :
    sortByPriority l =
      l.filter (fun s => decide (s.priority = SuggestionPriority.high)) ++
      l.filter (fun s => decide (s.priority = SuggestionPriority.medium)) ++
      l.filter (fun s => decide (s.priority = SuggestionPriority.low)) := by
  induction l with
  | nil => rfl
  | cons x xs ih =>
    show insSorted x (sortByPriority xs) = _
    rw [ih]
    cases hx : x.priority with
    | high =>
      rw [insSorted_cons_of_forall_ge x _ (fun y hy => by simp [priorityRank, hx])]
      simp [List.filter_cons, hx]
    | medium =>
      rw [List.append_assoc]
      rw [insSorted_all_lt x _ _ (fun y hy => by
        rw [rank_of_mem_filter _ _ _ hy, hx]
        simp [priorityRank])]
      rw [insSorted_cons_of_forall_ge x _ (fun y hy => by
        rcases List.mem_append.mp hy with hy2 | hy2 <;>
          rw [rank_of_mem_filter _ _ _ hy2, hx] <;> simp [priorityRank])]
      simp [List.filter_cons, hx, List.append_assoc]
    | low =>
      rw [insSorted_all_lt x (_ ++ _) _ (fun y hy => by
        rcases List.mem_append.mp hy with hy2 | hy2 <;>
          rw [rank_of_mem_filter _ _ _ hy2, hx] <;> simp [priorityRank])]
      rw [insSorted_cons_of_forall_ge x _ (fun y hy => by
        rw [rank_of_mem_filter _ _ _ hy, hx]
        simp [priorityRank])]
      simp [List.filter_cons, hx]

theorem mem_sortByPriority (s : ValidationSuggestion) (l : List ValidationSuggestion) :
    s ∈ sortByPriority l ↔ s ∈ l := by
  rw [sortByPriority_eq_filters]
  simp only [List.mem_append, List.mem_filter, decide_eq_true_eq]
  constructor
  · rintro ((⟨h, _⟩ | ⟨h, _⟩) | ⟨h, _⟩) <;> exact h
  · intro h
    cases hp : s.priority with
    | high => exact Or.inl (Or.inl ⟨h, rfl⟩)
    | medium => exact Or.inl (Or.inr ⟨h, rfl⟩)
    | low => exact Or.inr ⟨h, rfl⟩

theorem pairwise_le_of_all (l : List ValidationSuggestion) (c : Nat)
    (h : ∀ s ∈ l, priorityRank s.priority = c) :
    l.Pairwise (fun a b => priorityRank a.priority ≤ priorityRank b.priority) := by
  induction l with
  | nil => exact List.Pairwise.nil
  | cons x xs ih =>
    refine List.Pairwise.cons ?_ (ih fun s hs => h s (by simp [hs]))
    intro b hb
    rw [h x (by simp), h b (by simp [hb])]

theorem sortByPriority_pairwise (l : List ValidationSuggestion) :
    (sortByPriority l).Pairwise
      (fun a b => priorityRank a.priority ≤ priorityRank b.priority) := by
  rw [sortByPriority_eq_filters, List.append_assoc]
  rw [List.pairwise_append]
  refine ⟨pairwise_le_of_all _ 0 (fun s hs => by
      rw [rank_of_mem_filter _ _ _ hs]; rfl), ?_, ?_⟩
  · rw [List.pairwise_append]
    refine ⟨pairwise_le_of_all _ 1 (fun s hs => by
        rw [rank_of_mem_filter _ _ _ hs]; rfl),
      pairwise_le_of_all _ 2 (fun s hs => by
        rw [rank_of_mem_filter _ _ _ hs]; rfl), ?_⟩
    intro a ha b hb
    rw [rank_of_mem_filter _ _ _ ha, rank_of_mem_filter _ _ _ hb]
    simp [priorityRank]
  · intro a ha b hb
    rw [rank_of_mem_filter _ _ _ ha]
    rcases List.mem_append.mp hb with hb2 | hb2 <;>
      rw [rank_of_mem_filter _ _ _ hb2] <;> simp [priorityRank]

theorem sortByPriority_filter (l : List ValidationSuggestion) (q : SuggestionPriority) :
    (sortByPriority l).filter (fun s => decide (s.priority = q)) =
      l.filter (fun s => decide (s.priority = q)) := by
  rw [sortByPriority_eq_filters]
  rw [List.filter_append, List.filter_append]
  have hself : ∀ l2 : List ValidationSuggestion,
      (l2.filter (fun s => decide (s.priority = q))).filter
        (fun s => decide (s.priority = q)) =
      l2.filter (fun s => decide (s.priority = q)) := by
    intro l2
    rw [List.filter_eq_self]
    intro a ha
    simp [rank_of_mem_filter _ _ _ ha]
  have hnil : ∀ (q2 : SuggestionPriority), q2 ≠ q →
      (l.filter (fun s => decide (s.priority = q2))).filter
        (fun s => decide (s.priority = q)) = [] := by
    intro q2 hq2
    rw [List.filter_eq_nil_iff]
    intro a ha
    rw [rank_of_mem_filter _ _ _ ha]
    simp [hq2]
  cases q with
  | high => rw [hself, hnil .medium (by simp), hnil .low (by simp)]; simp
  | medium => rw [hself, hnil .high (by simp), hnil .low (by simp)]; simp
  | low => rw [hself, hnil .high (by simp), hnil .medium (by simp)]; simp

/-! ## Aggregator theorems: C1, C2, C3 -/

theorem jsTrim_of_isEmpty (content : List Char) (h : content.isEmpty = true) :
    (jsTrim content).isEmpty = true := by
  cases content with
  | nil => rfl
  | cons c cs => simp at h

theorem foldl_sub_deduction (l : List ValidationSuggestion) (c : Int) :
    l.foldl (fun sc s => sc - scoreDeduction s) c = c - (l.map scoreDeduction).sum := by
  induction l generalizing c with
  | nil => simp
  | cons x xs ih =>
    rw [List.foldl_cons, ih, List.map_cons, List.sum_cons]
    ring

/-- `calculateScore` written as the spec's formula: deductions summed,
clamped below at 0, then the three independent bonuses, then capped at 100. -/
theorem calculateScore_eq (parsed : ParsedMarkdown) (sugg : List ValidationSuggestion) :
    calculateScore parsed sugg =
      min 100 (max 0 (100 - ((sugg.map scoreDeduction).sum)) +
        (if 3 ≤ parsed.sections.length then (5 : Int) else 0) +
        (if 0 < parsed.codeBlocks.length then (5 : Int) else 0) +
        (if 10 ≤ parsed.lineCount ∧ parsed.lineCount ≤ 150 then (5 : Int) else 0)) := by
  simp only [calculateScore, foldl_sub_deduction]
  split_ifs <;> omega

/-- C2: empty or whitespace-only input short-circuits to the fixed result:
score 0, exactly the one fixed Get-started suggestion, fixed summary. -/
theorem empty_input_c2 (content : List Char) (h : (jsTrim content).isEmpty = true) :
    validateAgentsMd content =
      { suggestions := [getStartedSuggestion], score := 0,
        summary := "Empty file - add content to get started" } := by
  unfold validateAgentsMd
  rw [if_pos (by simp [h])]

theorem empty_input_c2_witness :
    (jsTrim "   ".toList).isEmpty = true ∧
    validateAgentsMd "   ".toList =
      { suggestions := [getStartedSuggestion], score := 0,
        summary := "Empty file - add content to get started" } :=
  ⟨by decide, empty_input_c2 _ (by decide)⟩

/-- C1: the score is the spec formula — 100 minus 15/8/3 per non-success
suggestion, clamped at 0, plus the three +5 bonuses, capped at 100 — and it
always lies in [0, 100]. -/
theorem validate_score_c1 (content : List Char) :
    0 ≤ (validateAgentsMd content).score ∧ (validateAgentsMd content).score ≤ 100 ∧
    ((jsTrim content).isEmpty = false →
      (validateAgentsMd content).score =
        min 100 (max 0 (100 - (((validateAgentsMd content).suggestions.map scoreDeduction).sum)) +
          (if 3 ≤ (parseMarkdown content).sections.length then (5 : Int) else 0) +
          (if 0 < (parseMarkdown content).codeBlocks.length then (5 : Int) else 0) +
          (if 10 ≤ (parseMarkdown content).lineCount ∧ (parseMarkdown content).lineCount ≤ 150
            then (5 : Int) else 0))) := by
  unfold validateAgentsMd
  split
  · rename_i hcond
    refine ⟨by simp, by simp, ?_⟩
    intro hne
    exfalso
    rcases (by simpa using hcond :
        content.isEmpty = true ∨ (jsTrim content).isEmpty = true) with h1 | h1
    · rw [jsTrim_of_isEmpty content h1] at hne
      simp at hne
    · rw [h1] at hne
      simp at hne
  · simp only
    rw [calculateScore_eq]
    refine ⟨by split_ifs <;> omega, by split_ifs <;> omega, fun _ => rfl⟩

theorem validate_score_c1_witness :
    (jsTrim "# hi".toList).isEmpty = false ∧
    0 ≤ (validateAgentsMd "# hi".toList).score ∧
    (validateAgentsMd "# hi".toList).score ≤ 100 ∧
    (validateAgentsMd "# hi".toList).score =
      min 100 (max 0 (100 - (((validateAgentsMd "# hi".toList).suggestions.map
          scoreDeduction).sum)) +
        (if 3 ≤ (parseMarkdown "# hi".toList).sections.length then (5 : Int) else 0) +
        (if 0 < (parseMarkdown "# hi".toList).codeBlocks.length then (5 : Int) else 0) +
        (if 10 ≤ (parseMarkdown "# hi".toList).lineCount ∧
            (parseMarkdown "# hi".toList).lineCount ≤ 150 then (5 : Int) else 0)) :=
  ⟨by decide, (validate_score_c1 "# hi".toList).1, (validate_score_c1 "# hi".toList).2.1,
    (validate_score_c1 "# hi".toList).2.2 (by decide)⟩

/-- C3: the output suggestions are sorted by priority rank
(high = 0 < medium = 1 < low = 2), and within each priority the emission
order of the rule catalogue is preserved (the sort is stable). -/
theorem suggestions_sorted_c3 (content : List Char) :
    (∀ i j : Fin (validateAgentsMd content).suggestions.length, i < j →
      priorityRank ((validateAgentsMd content).suggestions.get i).priority ≤
        priorityRank ((validateAgentsMd content).suggestions.get j).priority) ∧
    ((jsTrim content).isEmpty = false → ∀ q : SuggestionPriority,
      (validateAgentsMd content).suggestions.filter (fun s => decide (s.priority = q)) =
        (runRules (parseMarkdown content) content).filter
          (fun s => decide (s.priority = q))) := by
  constructor
  · have hp : (validateAgentsMd content).suggestions.Pairwise
        (fun a b => priorityRank a.priority ≤ priorityRank b.priority) := by
      unfold validateAgentsMd
      split
      · exact List.pairwise_singleton _ _
      · exact sortByPriority_pairwise _
    exact fun i j hij => List.pairwise_iff_get.mp hp i j hij
  · intro hne q
    unfold validateAgentsMd
    rw [if_neg (by
      intro hcond
      rcases (by simpa using hcond :
        content.isEmpty = true ∨ (jsTrim content).isEmpty = true) with h1 | h1
      · rw [jsTrim_of_isEmpty content h1] at hne
        simp at hne
      · rw [h1] at hne
        simp at hne)]
    exact sortByPriority_filter _ q

theorem suggestions_sorted_c3_witness :
    (jsTrim "# hi".toList).isEmpty = false ∧
    (∀ i j : Fin (validateAgentsMd "# hi".toList).suggestions.length, i < j →
      priorityRank ((validateAgentsMd "# hi".toList).suggestions.get i).priority ≤
        priorityRank ((validateAgentsMd "# hi".toList).suggestions.get j).priority) ∧
    (∀ q : SuggestionPriority,
      (validateAgentsMd "# hi".toList).suggestions.filter
          (fun s => decide (s.priority = q)) =
        (runRules (parseMarkdown "# hi".toList) "# hi".toList).filter
          (fun s => decide (s.priority = q))) :=
  ⟨by decide, (suggestions_sorted_c3 "# hi".toList).1,
    (suggestions_sorted_c3 "# hi".toList).2 (by decide)⟩

/-! ## Rule-catalogue lemmas (titles and triggers) -/

theorem validate_cond_false (content : List Char) (hne : (jsTrim content).isEmpty = false) :
    (content.isEmpty || (jsTrim content).isEmpty) = false := by
  cases content with
  | nil => simp [jsTrim] at hne
  | cons c cs => simp [hne]

theorem validate_suggestions_eq (content : List Char)
    (hne : (jsTrim content).isEmpty = false) :
    (validateAgentsMd content).suggestions =
      sortByPriority (runRules (parseMarkdown content) content) := by
  unfold validateAgentsMd
  rw [if_neg (by simp [validate_cond_false content hne])]

theorem mem_if_singleton {c : Prop} [Decidable c] {r s : ValidationSuggestion}
    (h : s ∈ (if c then [r] else [])) : s = r := by
  split at h
  · simpa using h
  · simp at h

theorem checkLength_title (parsed : ParsedMarkdown) (s : ValidationSuggestion)
    (h : checkLength parsed = some s) :
    s.title = "Consider keeping it concise" ∨ s.title = "File is getting long" := by
  simp only [checkLength] at h
  split at h
  · simp only [Option.some.injEq] at h
    subst h
    exact Or.inl rfl
  · split at h
    · simp only [Option.some.injEq] at h
      subst h
      exact Or.inr rfl
    · simp at h

theorem checkMinimumContent_spec (parsed : ParsedMarkdown) (s : ValidationSuggestion)
    (h : checkMinimumContent parsed = some s) :
    (parsed.lineCount < 5 ∧ s.title = "Add more context" ∧
      s.priority = SuggestionPriority.medium) ∨
    (¬ parsed.lineCount < 5 ∧ parsed.sections.length = 0 ∧
      s.title = "Add section headings" ∧ s.priority = SuggestionPriority.high) := by
  unfold checkMinimumContent at h
  split at h
  · rename_i hc
    simp only [Option.some.injEq] at h
    subst h
    exact Or.inl ⟨hc, rfl, rfl⟩
  · rename_i hc
    split at h
    · rename_i hc2
      simp only [Option.some.injEq] at h
      subst h
      exact Or.inr ⟨hc, hc2, rfl, rfl⟩
    · simp at h

theorem checkCommonSections_title (parsed : ParsedMarkdown) (s : ValidationSuggestion)
    (h : s ∈ checkCommonSections parsed) :
    s.title = "Consider adding setup instructions" ∨
    s.title = "Consider adding testing instructions" ∨
    s.title = "Consider documenting code style" := by
  simp only [checkCommonSections] at h
  rcases List.mem_append.mp h with h1 | h1
  · rcases List.mem_append.mp h1 with h2 | h2
    · rw [mem_if_singleton h2]
      exact Or.inl rfl
    · rw [mem_if_singleton h2]
      exact Or.inr (Or.inl rfl)
  · rw [mem_if_singleton h1]
    exact Or.inr (Or.inr rfl)

theorem checkCommandFormatting_title (parsed : ParsedMarkdown) (content : List Char)
    (s : ValidationSuggestion) (h : checkCommandFormatting parsed content = some s) :
    s.title = "Consider using code blocks" := by
  simp only [checkCommandFormatting] at h
  split at h
  · simp only [Option.some.injEq] at h
    subst h
    rfl
  · simp at h

theorem checkVersionSpecificity_title (content : List Char) (s : ValidationSuggestion)
    (h : checkVersionSpecificity content = some s) :
    s.title = "Be more specific about versions" := by
  simp only [checkVersionSpecificity] at h
  split at h
  · simp only [Option.some.injEq] at h
    subst h
    rfl
  · simp at h

theorem checkWellFormed_title (parsed : ParsedMarkdown) (content : List Char)
    (s : ValidationSuggestion) (h : checkWellFormed parsed content = some s) :
    s.title = "Well-structured AGENTS.md" := by
  simp only [checkWellFormed] at h
  split at h
  · simp only [Option.some.injEq] at h
    subst h
    rfl
  · simp at h

theorem checkReadability_spec (parsed : ParsedMarkdown) (s : ValidationSuggestion)
    (h : s ∈ checkReadability parsed) :
    s.title = "Multiple top-level headings" ∨
    (s.title = "Some sections are very long" ∧ s.priority = SuggestionPriority.low ∧
      0 < (parsed.sections.filter
        (fun sec => 50 < (splitLines sec.content).length)).length) ∨
    s.title = "Empty sections detected" := by
  simp only [checkReadability] at h
  rcases List.mem_append.mp h with h1 | h1
  · rcases List.mem_append.mp h1 with h2 | h2
    · rw [mem_if_singleton h2]
      exact Or.inl rfl
    · right
      left
      split at h2
      · rename_i hc
        have hs := by simpa using h2
        rw [hs]
        exact ⟨rfl, rfl, hc⟩
      · simp at h2
  · rw [mem_if_singleton h1]
    exact Or.inr (Or.inr rfl)

theorem checkReadability_long_mem (parsed : ParsedMarkdown)
    (hc : 0 < (parsed.sections.filter
      (fun sec => 50 < (splitLines sec.content).length)).length) :
    ∃ s ∈ checkReadability parsed,
      s.title = "Some sections are very long" ∧ s.priority = SuggestionPriority.low := by
  refine ⟨⟨.tip, "Some sections are very long",
    toString (parsed.sections.filter
      (fun sec => 50 < (splitLines sec.content).length)).length ++
      " section(s) have more than 50 lines.",
    some "Consider breaking long sections into subsections or removing verbose details.",
    none, .low⟩, ?_, rfl, rfl⟩
  simp only [checkReadability]
  refine List.mem_append.mpr (Or.inl (List.mem_append.mpr (Or.inr ?_)))
  rw [if_pos hc]
  exact List.mem_singleton.mpr rfl

theorem mem_runRules_cases (parsed : ParsedMarkdown) (content : List Char)
    (s : ValidationSuggestion) (h : s ∈ runRules parsed content) :
    checkLength parsed = some s ∨ checkMinimumContent parsed = some s ∨
    s ∈ checkCommonSections parsed ∨ checkCommandFormatting parsed content = some s ∨
    checkVersionSpecificity content = some s ∨ s ∈ checkReadability parsed ∨
    checkWellFormed parsed content = some s := by
  unfold runRules at h
  simp only [List.mem_append, Option.mem_toList, Option.mem_def] at h
  tauto

theorem title_long_only (parsed : ParsedMarkdown) (content : List Char)
    (s : ValidationSuggestion) (h : s ∈ runRules parsed content)
    (ht : s.title = "Some sections are very long") :
    s.priority = SuggestionPriority.low ∧
    0 < (parsed.sections.filter
      (fun sec => 50 < (splitLines sec.content).length)).length := by
  rcases mem_runRules_cases _ _ _ h with h1 | h1 | h1 | h1 | h1 | h1 | h1
  · rcases checkLength_title _ _ h1 with he | he <;> rw [he] at ht <;>
      exact absurd ht (by decide)
  · rcases checkMinimumContent_spec _ _ h1 with ⟨_, he, _⟩ | ⟨_, _, he, _⟩ <;>
      rw [he] at ht <;> exact absurd ht (by decide)
  · rcases checkCommonSections_title _ _ h1 with he | he | he <;> rw [he] at ht <;>
      exact absurd ht (by decide)
  · rw [checkCommandFormatting_title _ _ _ h1] at ht
    exact absurd ht (by decide)
  · rw [checkVersionSpecificity_title _ _ h1] at ht
    exact absurd ht (by decide)
  · rcases checkReadability_spec _ _ h1 with he | ⟨_, hp, hc⟩ | he
    · rw [he] at ht
      exact absurd ht (by decide)
    · exact ⟨hp, hc⟩
    · rw [he] at ht
      exact absurd ht (by decide)
  · rw [checkWellFormed_title _ _ _ h1] at ht
    exact absurd ht (by decide)

theorem title_minimum_only (parsed : ParsedMarkdown) (content : List Char)
    (s : ValidationSuggestion) (h : s ∈ runRules parsed content)
    (ht : s.title = "Add more context" ∨ s.title = "Add section headings") :
    checkMinimumContent parsed = some s := by
  rcases mem_runRules_cases _ _ _ h with h1 | h1 | h1 | h1 | h1 | h1 | h1
  · rcases checkLength_title _ _ h1 with he | he <;> rcases ht with ht | ht <;>
      rw [he] at ht <;> exact absurd ht (by decide)
  · exact h1
  · rcases checkCommonSections_title _ _ h1 with he | he | he <;>
      rcases ht with ht | ht <;> rw [he] at ht <;> exact absurd ht (by decide)
  · rcases ht with ht | ht <;> rw [checkCommandFormatting_title _ _ _ h1] at ht <;>
      exact absurd ht (by decide)
  · rcases ht with ht | ht <;> rw [checkVersionSpecificity_title _ _ h1] at ht <;>
      exact absurd ht (by decide)
  · rcases checkReadability_spec _ _ h1 with he | ⟨he, _, _⟩ | he <;>
      rcases ht with ht | ht <;> rw [he] at ht <;> exact absurd ht (by decide)
  · rcases ht with ht | ht <;> rw [checkWellFormed_title _ _ _ h1] at ht <;>
      exact absurd ht (by decide)

/-! ## C4, C8, C9 -/

/-- C4 (amended): the No-headings suggestion fires for a non-empty input with
no sections only when `lineCount` is at least 5 — the `lineCount < 5` branch
of the same check takes precedence (see the counterexample). -/
theorem no_headings_c4_amended (content : List Char)
    (hne : (jsTrim content).isEmpty = false)
    (hsec : (parseMarkdown content).sections.length = 0)
    (hlc : 5 ≤ (parseMarkdown content).lineCount) :
    ∃ s ∈ (validateAgentsMd content).suggestions,
      s.title = "Add section headings" ∧ s.priority = SuggestionPriority.high := by
  have hmin : checkMinimumContent (parseMarkdown content) =
      some ⟨.tip, "Add section headings",
        "No section headings found. Organize your content with clear headings.",
        some ("Use ## for main sections like \"Setup\", \"Testing\", \"Code Style\"."),
        none, .high⟩ := by
    unfold checkMinimumContent
    rw [if_neg (by omega), if_pos hsec]
  refine ⟨⟨.tip, "Add section headings",
    "No section headings found. Organize your content with clear headings.",
    some ("Use ## for main sections like \"Setup\", \"Testing\", \"Code Style\"."),
    none, .high⟩, ?_, rfl, rfl⟩
  rw [validate_suggestions_eq content hne]
  apply (mem_sortByPriority _ _).mpr
  unfold runRules
  have hB : (⟨.tip, "Add section headings",
      "No section headings found. Organize your content with clear headings.",
      some ("Use ## for main sections like \"Setup\", \"Testing\", \"Code Style\"."),
      none, .high⟩ : ValidationSuggestion) ∈
      (checkMinimumContent (parseMarkdown content)).toList := by
    rw [hmin]
    simp
  exact List.mem_append_left _ (List.mem_append_left _ (List.mem_append_left _
    (List.mem_append_left _ (List.mem_append_left _ (List.mem_append_right _ hB)))))

/-- C4 as stated is false: `"hi"` parses with no sections, yet the result
holds no "Add section headings" suggestion (the short-file branch wins). -/
theorem no_headings_c4_counterexample :
    (jsTrim "hi".toList).isEmpty = false ∧
    (parseMarkdown "hi".toList).sections.length = 0 ∧
    ((validateAgentsMd "hi".toList).suggestions.any
      (fun s => s.title == "Add section headings")) = false := by
  refine ⟨by decide, by decide, ?_⟩
  decide

theorem no_headings_c4_witness :
    ((jsTrim "a\nb\nc\nd\ne".toList).isEmpty = false ∧
      (parseMarkdown "a\nb\nc\nd\ne".toList).sections.length = 0 ∧
      5 ≤ (parseMarkdown "a\nb\nc\nd\ne".toList).lineCount) ∧
    ∃ s ∈ (validateAgentsMd "a\nb\nc\nd\ne".toList).suggestions,
      s.title = "Add section headings" ∧ s.priority = SuggestionPriority.high :=
  ⟨⟨by decide, by decide, by decide⟩,
    no_headings_c4_amended "a\nb\nc\nd\ne".toList (by decide) (by decide) (by decide)⟩

/-- C8 (amended): the Long-section suggestion fires iff some section's
accumulated content splits into more than 50 newline-separated pieces.
Because each content line is stored with a trailing newline, a section with
exactly 50 content lines already has 51 pieces and triggers the rule (see
the counterexample). -/
theorem long_section_c8_amended (content : List Char)
    (hne : (jsTrim content).isEmpty = false) :
    (∃ s ∈ (validateAgentsMd content).suggestions,
        s.title = "Some sections are very long" ∧
        s.priority = SuggestionPriority.low) ↔
      ∃ sec ∈ (parseMarkdown content).sections, 50 < (splitLines sec.content).length := by
  rw [validate_suggestions_eq content hne]
  constructor
  · rintro ⟨s, hs, ht, _⟩
    have hmem : s ∈ runRules (parseMarkdown content) content :=
      (mem_sortByPriority _ _).mp hs
    have hlt := (title_long_only _ _ _ hmem ht).2
    obtain ⟨sec, hsec⟩ := List.length_pos_iff_exists_mem.mp hlt
    exact ⟨sec, (List.mem_filter.mp hsec).1, by simpa using (List.mem_filter.mp hsec).2⟩
  · rintro ⟨sec, hsec, hlong⟩
    have hc : 0 < ((parseMarkdown content).sections.filter
        (fun sec => 50 < (splitLines sec.content).length)).length :=
      List.length_pos_iff_exists_mem.mpr
        ⟨sec, List.mem_filter.mpr ⟨hsec, by simpa using hlong⟩⟩
    obtain ⟨s, hsmem, ht, hp⟩ := checkReadability_long_mem _ hc
    refine ⟨s, ?_, ht, hp⟩
    apply (mem_sortByPriority _ _).mpr
    unfold runRules
    exact List.mem_append_left _ (List.mem_append_right _ hsmem)

/-- C8 as stated is false: a document whose single section holds exactly 50
content lines (50 newlines in its accumulated content) still triggers the
Long-section suggestion. -/
theorem long_section_c8_counterexample :
    (∀ sec ∈ (parseMarkdown ("# t".toList ++
        (List.replicate 50 "\na".toList).flatten)).sections,
      sec.content.count '\n' ≤ 50) ∧
    ((validateAgentsMd ("# t".toList ++
        (List.replicate 50 "\na".toList).flatten)).suggestions.any
      (fun s => s.title == "Some sections are very long")) = true := by
  constructor
  · decide
  · decide

theorem long_section_c8_witness :
    (jsTrim "# a".toList).isEmpty = false ∧
    ((∃ s ∈ (validateAgentsMd "# a".toList).suggestions,
        s.title = "Some sections are very long" ∧
        s.priority = SuggestionPriority.low) ↔
      ∃ sec ∈ (parseMarkdown "# a".toList).sections,
        50 < (splitLines sec.content).length) :=
  ⟨by decide, long_section_c8_amended "# a".toList (by decide)⟩

/-- C9: the two outputs of `checkMinimumContent` are mutually exclusive — no
result ever contains both "Add more context" and "Add section headings",
since one check produces at most one of them and no other rule uses these
titles. -/
theorem min_content_exclusive_c9 (content : List Char) :
    (((validateAgentsMd content).suggestions.any
        (fun s => s.title == "Add more context")) &&
      ((validateAgentsMd content).suggestions.any
        (fun s => s.title == "Add section headings"))) = false := by
  by_cases hne : (jsTrim content).isEmpty = false
  · rw [validate_suggestions_eq content hne]
    by_contra hcontra
    have hboth := Bool.and_eq_true _ _ ▸ Bool.of_not_eq_false hcontra
    obtain ⟨s1, hs1, ht1⟩ := List.any_eq_true.mp hboth.1
    obtain ⟨s2, hs2, ht2⟩ := List.any_eq_true.mp hboth.2
    replace ht1 : s1.title = "Add more context" := by simpa using ht1
    replace ht2 : s2.title = "Add section headings" := by simpa using ht2
    have h1 := title_minimum_only _ content _ ((mem_sortByPriority _ _).mp hs1)
      (Or.inl ht1)
    have h2 := title_minimum_only _ content _ ((mem_sortByPriority _ _).mp hs2)
      (Or.inr ht2)
    rw [h1] at h2
    have heq : s1 = s2 := by simpa using h2
    rw [heq, ht2] at ht1
    exact absurd ht1 (by decide)
  · cases hx : (jsTrim content).isEmpty with
    | false => exact absurd hx hne
    | true =>
      rw [empty_input_c2 content hx]
      decide

end AgentsMd
